import Mathlib

/-!
# SPARSE Album Ranker — verification of the ranking engine

Shallow embedding of the SPARSE album ranker (`modules/main/ranking/album_ranker.py`,
`modules/main/spotify/spotify_utilities.py`, `modules/main/util/utilities.py`) and
proofs about it.

Python `dict`s are modelled as insertion-ordered association lists (`pyGet`/`pySet`
mirror `d[k]` / `d[k] = v`): assignment to an existing key keeps its position, a new
key is appended at the end, exactly as CPython dicts behave.  Python `set`s are
modelled as `Finset`.  Python `float` scores are modelled as `ℚ` (every score the
program manipulates is an exact small rational).  Fallible code returns `Except`.
-/

namespace Sparse

/-- One kind of exception for each exception the modelled code can raise:
`keyError` models Python's `KeyError` on a missing dict key, `tierError` models
`SparsePlaylistTierException` from `spotify_utilities`. -/
inductive SparseErr where
  | keyError : SparseErr
  | tierError : String → SparseErr
deriving DecidableEq, Repr

instance {ε α : Type} [DecidableEq ε] [DecidableEq α] : DecidableEq (Except ε α) :=
  fun a b =>
    match a, b with
    | .ok x, .ok y => if h : x = y then .isTrue (by rw [h]) else .isFalse (by simp [h])
    | .error x, .error y => if h : x = y then .isTrue (by rw [h]) else .isFalse (by simp [h])
    | .ok _, .error _ => .isFalse (by simp)
    | .error _, .ok _ => .isFalse (by simp)

/-- Python dict read `d[k]`, returning `none` where Python raises `KeyError`. -/
def pyGet {κ α : Type} [DecidableEq κ] : List (κ × α) → κ → Option α
  | [], _ => none
  | (k', v) :: rest, k => if k' = k then some v else pyGet rest k

/-- Python dict write `d[k] = v`: an existing key keeps its position and gets the
new value, a new key is appended at the end. -/
def pySet {κ α : Type} [DecidableEq κ] : List (κ × α) → κ → α → List (κ × α)
  | [], k, v => [(k, v)]
  | (k', v') :: rest, k, v =>
      if k' = k then (k, v) :: rest else (k', v') :: pySet rest k v

theorem pyGet_pySet_self {κ α : Type} [DecidableEq κ] (m : List (κ × α)) (k : κ) (v : α) :
    pyGet (pySet m k v) k = some v := by
  induction m with
  | nil => simp [pyGet, pySet]
  | cons hd tl ih =>
      obtain ⟨k', v'⟩ := hd
      by_cases h : k' = k <;> simp [pyGet, pySet, h, ih]

theorem pyGet_pySet_ne {κ α : Type} [DecidableEq κ] (m : List (κ × α)) (k k' : κ) (v : α)
    (h : k ≠ k') : pyGet (pySet m k v) k' = pyGet m k' := by
  induction m with
  | nil => simp [pyGet, pySet, h]
  | cons hd tl ih =>
      obtain ⟨k₀, v₀⟩ := hd
      by_cases h0 : k₀ = k
      · subst h0
        simp [pyGet, pySet, h]
      · simp only [pySet, if_neg h0, pyGet]
        by_cases h1 : k₀ = k' <;> simp [h1, ih]

/-! ## `spotify_utilities.py` -/

/-- `is_valid_tier`: true iff the tier is 1, 2 or 3 (`3 >= tier >= 1`). -/
def is_valid_tier (tier : Nat) : Bool := 1 ≤ tier && tier ≤ 3

/-- `get_track_key`: the placement key `f"{name}_{tier}"`; raises
`SparsePlaylistTierException` for an empty name or an invalid tier.  (The Python
messages lack the `f` prefix, so the braces below are literal text, as in the
source.) -/
def get_track_key (name : String) (tier : Nat) : Except SparseErr String :=
  if name = "" then
    .error (.tierError "Tried to add a track with no name to tier \x7btier\x7d.")
  else if !is_valid_tier tier then
    .error (.tierError
      "Tried to add \x7bname\x7d to tier \x7btier\x7d, but playlist tiers can only be `1`, `2` or `3`.")
  else
    .ok (name ++ "_" ++ toString tier)

/-- `get_tier_key`: the in-memory dict key `f"tier_{tier}_tracks"`; raises
`SparsePlaylistTierException` for an invalid tier. -/
def get_tier_key (tier : Nat) : Except SparseErr String :=
  if !is_valid_tier tier then
    .error (.tierError
      "Tried to get the tier key for invalid tier \x7btier\x7d. Playlist tiers can only be `1`, `2` or `3`.")
  else
    .ok ("tier_" ++ toString tier ++ "_tracks")

/-- `get_track_score`, with the track-dict unwrapping elided: the score as a
function of the track's `duration_ms` field.  Mirrors the source:
`duration_min = duration_ms/1000/60`, then the four-way conditional. -/
def get_track_score (duration_ms : Int) : ℚ :=
  let duration_min : ℚ := (duration_ms : ℚ) / 1000 / 60
  if duration_min < 0.25 then 0
  else if duration_min < 1.5 then 0.5
  else if duration_min > 6 then (⌊duration_min / 6⌋ : ℚ) + 1
  else 1

/-- Modelled from the spec (§4.1 table), for comparison with `get_track_score`:
`m = durationMs/60000`; score `0` when `m < 0.25`, `0.5` when `0.25 ≤ m < 1.5`,
`1` when `1.5 ≤ m ≤ 6`, and `floor(m/6) + 1` when `m > 6`. -/
def scoreSpecTable (duration_ms : Int) : ℚ :=
  let m : ℚ := (duration_ms : ℚ) / 60000
  if m < 1/4 then 0
  else if 1/4 ≤ m ∧ m < 3/2 then 1/2
  else if 3/2 ≤ m ∧ m ≤ 6 then 1
  else (⌊m / 6⌋ : ℚ) + 1

/-- C3: the track scorer is a pure total function of duration matching the
spec's piecewise table exactly, including at every boundary; in particular
0.249 min (14940 ms) → 0, 0.25 min (15000 ms) → 0.5, 1.5 min (90000 ms) → 1,
6.0 min (360000 ms) → 1, 6.01 min (360600 ms) → 2, 12 min (720000 ms) → 3. -/
theorem track_score_matches_spec_table :
    (∀ d : Int, get_track_score d = scoreSpecTable d)
    ∧ get_track_score 14940 = 0
    ∧ get_track_score 15000 = 1/2
    ∧ get_track_score 90000 = 1
    ∧ get_track_score 360000 = 1
    ∧ get_track_score 360600 = 2
    ∧ get_track_score 720000 = 3 := by
  refine ⟨fun d => ?_, ?_, ?_, ?_, ?_, ?_, ?_⟩
  · unfold get_track_score scoreSpecTable
    have hm : (d : ℚ) / 1000 / 60 = (d : ℚ) / 60000 := by
      rw [div_div]; norm_num
    have e1 : (0.25 : ℚ) = 1/4 := by norm_num
    have e2 : (1.5 : ℚ) = 3/2 := by norm_num
    have e3 : (0.5 : ℚ) = 1/2 := by norm_num
    dsimp only
    rw [hm, e1, e2, e3]
    by_cases h1 : (d : ℚ) / 60000 < 1/4
    · rw [if_pos h1, if_pos h1]
    · by_cases h2 : (d : ℚ) / 60000 < 3/2
      · rw [if_neg h1, if_pos h2, if_neg h1, if_pos ⟨not_lt.mp h1, h2⟩]
      · by_cases h3 : (d : ℚ) / 60000 > 6
        · rw [if_neg h1, if_neg h2, if_pos h3, if_neg h1,
            if_neg (fun h => h2 h.2), if_neg (fun h => absurd h.2 (not_le.mpr h3))]
        · rw [if_neg h1, if_neg h2, if_neg h3, if_neg h1,
            if_neg (fun h => h2 h.2), if_pos ⟨not_lt.mp h2, not_lt.mp h3⟩]
  all_goals norm_num [get_track_score]

/-! ## `utilities.py`: year extraction -/

/-- Numeric value of an ASCII digit character. -/
def digitVal (c : Char) : Nat := c.toNat - 48

/-- Digit run of a Python integer literal after its first digit: digits with
single underscores allowed between digits (as `int("1_2") = 12`), accumulating
the value; a trailing or doubled underscore is a parse failure. -/
def pyDigitsGo (acc : Nat) : List Char → Option Nat
  | [] => some acc
  | c :: rest =>
      if c = '_' then
        match rest with
        | c2 :: rest2 => if c2.isDigit then pyDigitsGo (acc * 10 + digitVal c2) rest2 else none
        | [] => none
      else if c.isDigit then pyDigitsGo (acc * 10 + digitVal c) rest else none

/-- A nonempty digit run (with optional internal underscores) and its value. -/
def pyDigits : List Char → Option Nat
  | [] => none
  | c :: rest => if c.isDigit then pyDigitsGo (digitVal c) rest else none

/-- Python `int(str)` on a character list: surrounding whitespace stripped, an
optional sign, then a digit run.  (Non-ASCII decimal digits, accepted by CPython,
are not modelled; the repository only feeds ASCII release-date strings.) -/
def pyInt (s : List Char) : Option Int :=
  let t := s.dropWhile Char.isWhitespace
  let t := (t.reverse.dropWhile Char.isWhitespace).reverse
  match t with
  | [] => none
  | c :: rest =>
      if c = '+' then (pyDigits rest).map (fun n => (n : Int))
      else if c = '-' then (pyDigits rest).map (fun n => -(n : Int))
      else (pyDigits (c :: rest)).map (fun n => (n : Int))

/-- `extract_year_from_date`: `int(date.lstrip()[:4])`, re-raising a parse failure
as a descriptive `ValueError` (modelled as `Except.error` carrying the message). -/
def extract_year_from_date (date : String) : Except String Int :=
  match pyInt ((date.data.dropWhile Char.isWhitespace).take 4) with
  | some n => .ok n
  | none => .error ("Error: Invalid date format " ++ date ++ ".")

theorem isDigit_not_whitespace {c : Char} (hc : c.isDigit) : c.isWhitespace = false := by
  simp only [Char.isWhitespace, Bool.or_eq_false_iff, decide_eq_false_iff_not]
  refine ⟨⟨⟨?_, ?_⟩, ?_⟩, ?_⟩ <;> rintro rfl <;> exact absurd hc (by decide)

theorem pyDigitsGo_all_digits (l : List Char) :
    ∀ acc : Nat, (∀ c ∈ l, c.isDigit) →
      pyDigitsGo acc l = some (l.foldl (fun a c => 10 * a + digitVal c) acc) := by
  induction l with
  | nil => intro acc _; rfl
  | cons c rest ih =>
      intro acc h
      have hc : c.isDigit := h c (by simp)
      have hne : c ≠ '_' := by rintro rfl; exact absurd hc (by decide)
      rw [pyDigitsGo.eq_def]
      simp only [if_neg hne, if_pos hc]
      rw [ih _ (fun x hx => h x (by simp [hx])), List.foldl_cons]
      have hcomm : acc * 10 + digitVal c = 10 * acc + digitVal c := by ring
      rw [hcomm]

theorem pyDigits_all_digits (l : List Char) (hne : l ≠ []) (h : ∀ c ∈ l, c.isDigit) :
    pyDigits l = some (l.foldl (fun a c => 10 * a + digitVal c) 0) := by
  match l, hne with
  | c :: rest, _ =>
      have hc : c.isDigit := h c (by simp)
      rw [pyDigits.eq_def]
      simp only [if_pos hc]
      rw [pyDigitsGo_all_digits rest _ (fun x hx => h x (by simp [hx]))]
      simp [digitVal]

theorem pyInt_all_digits (l : List Char) (hne : l ≠ []) (h : ∀ c ∈ l, c.isDigit) :
    pyInt l = some ((l.foldl (fun a c => 10 * a + digitVal c) 0 : Nat) : Int) := by
  match l, hne with
  | c :: rest, _ =>
      have hc : c.isDigit := h c (by simp)
      have hdw : (c :: rest).dropWhile Char.isWhitespace = c :: rest := by
        rw [List.dropWhile_cons, if_neg (by simp [isDigit_not_whitespace hc])]
      have hdwr : (c :: rest).reverse.dropWhile Char.isWhitespace = (c :: rest).reverse := by
        rcases hrev : (c :: rest).reverse with _ | ⟨c', rest'⟩
        · simp at hrev
        · have hc' : c'.isDigit := by
            apply h
            rw [← List.mem_reverse, hrev]
            simp
          rw [List.dropWhile_cons, if_neg (by simp [isDigit_not_whitespace hc'])]
      have h1 : c ≠ '+' := by rintro rfl; exact absurd hc (by decide)
      have h2 : c ≠ '-' := by rintro rfl; exact absurd hc (by decide)
      unfold pyInt
      simp only [hdw, hdwr, List.reverse_reverse]
      rw [if_neg h1, if_neg h2, pyDigits_all_digits _ (by simp) h]
      rfl

/-- C9 counterexample: for `" 2020-01-01"` (leading whitespace), the code strips
whitespace first and returns 2020, while the first 4 characters of the string,
`" 202"`, denote the integer 202 — so the claim's "first 4 characters of the
string" reading is false on this input. -/
theorem extract_year_counterexample :
    extract_year_from_date " 2020-01-01" = .ok 2020
    ∧ pyInt (" 2020-01-01".data.take 4) = some 202
    ∧ (202 : Int) ≠ 2020 := by
  refine ⟨by decide, by decide, by decide⟩

/-- C9 (amended): `extract_year_from_date` returns the integer denoted by the
first 4 characters of the *leading-whitespace-stripped* string — in particular,
when those 4 characters are 4 ASCII digits it returns their decimal value — and
raises a descriptive `ValueError` naming the input exactly when that 4-character
prefix does not parse as a Python integer; it never silently defaults. -/
theorem extract_year_spec (s : String) :
    (∀ n, pyInt ((s.data.dropWhile Char.isWhitespace).take 4) = some n →
      extract_year_from_date s = .ok n)
    ∧ (pyInt ((s.data.dropWhile Char.isWhitespace).take 4) = none →
      extract_year_from_date s = .error ("Error: Invalid date format " ++ s ++ "."))
    ∧ (((s.data.dropWhile Char.isWhitespace).take 4).length = 4 →
      (∀ c ∈ (s.data.dropWhile Char.isWhitespace).take 4, c.isDigit) →
      extract_year_from_date s =
        .ok (((s.data.dropWhile Char.isWhitespace).take 4).foldl
              (fun a c => 10 * a + digitVal c) (0 : Nat) : Nat)) := by
  refine ⟨fun n h => ?_, fun h => ?_, fun hlen hdig => ?_⟩
  · unfold extract_year_from_date; rw [h]
  · unfold extract_year_from_date; rw [h]
  · have hne : (s.data.dropWhile Char.isWhitespace).take 4 ≠ [] := by
      intro hc; rw [hc] at hlen; simp at hlen
    unfold extract_year_from_date
    rw [pyInt_all_digits _ hne hdig]

/-- C9 witness: the amended theorem applied at the concrete date `"2020-01-01"`. -/
theorem extract_year_spec_witness :
    extract_year_from_date "2020-01-01" = .ok 2020 := by
  have h := (extract_year_spec "2020-01-01").2.2 (by decide) (by decide)
  simpa using h

/-! ## `album_ranker.py`: data model -/

/-- The `Album` dataclass.  `playlist_placements` is a Python dict (modelled as
an insertion-ordered association list), `best_tracks` a Python set,
`album_track_names` the Python *list* produced by `get_track_names`. -/
structure Album where
  artists : String
  name : String
  highest_possible_score : ℚ
  year : Int
  duration_ms : Int
  album_track_names : List String
  playlist_placements : List (String × ℚ)
  best_tracks : Finset String
deriving DecidableEq

/-- The Albums encountered during a run, grouped by album key (a Python dict). -/
abbrev Memory : Type := List (String × Album)

/-- The `tier_tracks` dict.  `run()` initialises it with exactly the keys
`get_tier_key(3)`, `get_tier_key(2)`, `get_tier_key(1)`, i.e. `"tier_3_tracks"`,
`"tier_2_tracks"`, `"tier_1_tracks"`, each mapped to an (initially empty) set of
track-ID strings; we model it as a record with one field per key together with
string-keyed access mirroring `tier_tracks[some_key]`. -/
structure TierTracks where
  tier_1_tracks : Finset String
  tier_2_tracks : Finset String
  tier_3_tracks : Finset String
deriving DecidableEq

/-- Dict read `tier_tracks[key]` (`none` models `KeyError`). -/
def TierTracks.get (tt : TierTracks) (key : String) : Option (Finset String) :=
  if key = "tier_1_tracks" then some tt.tier_1_tracks
  else if key = "tier_2_tracks" then some tt.tier_2_tracks
  else if key = "tier_3_tracks" then some tt.tier_3_tracks
  else none

/-- Dict write `tier_tracks[key] = s` for the three keys present in the dict
(the ranker never writes any other key). -/
def TierTracks.set (tt : TierTracks) (key : String) (s : Finset String) : TierTracks :=
  if key = "tier_1_tracks" then { tt with tier_1_tracks := s }
  else if key = "tier_2_tracks" then { tt with tier_2_tracks := s }
  else if key = "tier_3_tracks" then { tt with tier_3_tracks := s }
  else tt

/-- Lift a dict lookup to `Except`, raising `KeyError` on a missing key. -/
def ofLookup {α : Type} : Option α → Except SparseErr α
  | some a => .ok a
  | none => .error .keyError

/-- `AlbumRanker.__addTieredTrackToMemory`.  Faithful to the source, including
its `if (tier_key not in tier_tracks[tier_key])` guard, which tests the *tier
key string* for membership rather than `track_id`.  Python mutates
`memory[album_key]` in place; since every mutation in one invocation targets
that single object, we accumulate the changes in `album` and write the entry
back before recursing/returning.  At tier 0 the leading `get_track_key` call
always raises, so the rest of the body is unreachable (modelled by an arbitrary
completion after the failing bind). -/
def addTieredTrackToMemory :
    (tier : Nat) → (album_key : String) → (duration_ms : Int) → (memory : Memory) →
    (tier_tracks : TierTracks) → (name : String) → (score : ℚ) → (track_id : String) →
    Except SparseErr (Memory × TierTracks)
  | 0, _, _, _, _, name, _, _ =>
      (get_track_key name 0).bind fun _ => .error .keyError
  | t + 1, album_key, duration_ms, memory, tier_tracks, name, score, track_id => do
      let tier := t + 1
      let key ← get_track_key name tier
      let album ← ofLookup (pyGet memory album_key)
      let album := { album with playlist_placements := pySet album.playlist_placements key score }
      let tier_key ← get_tier_key tier
      let s ← ofLookup (tier_tracks.get tier_key)
      if tier_key ∉ s then
        let tier_tracks := tier_tracks.set tier_key (insert track_id s)
        if tier = 3 then
          let album := { album with best_tracks := insert track_id album.best_tracks }
          addTieredTrackToMemory t album_key duration_ms (pySet memory album_key album)
            tier_tracks name score track_id
        else if tier = 1 then
          let album := { album with duration_ms := album.duration_ms + duration_ms }
          pure (pySet memory album_key album, tier_tracks)
        else
          addTieredTrackToMemory t album_key duration_ms (pySet memory album_key album)
            tier_tracks name score track_id
      else
        addTieredTrackToMemory t album_key duration_ms (pySet memory album_key album)
          tier_tracks name score track_id

/-! ### Concrete fixtures: one album `"X - A"` with a single track `"T"`
(duration 200000 ms, score 1, track ID `"uri:T"`), starting from empty
placements and empty tier-track sets — the state right after the album is first
created during collection. -/

def albumT : Album :=
  { artists := "X", name := "A", highest_possible_score := 3, year := 2020,
    duration_ms := 0, album_track_names := ["T"], playlist_placements := [],
    best_tracks := ∅ }

def memT : Memory := [("X - A", albumT)]

def ttEmpty : TierTracks := ⟨∅, ∅, ∅⟩

/-- Two successive propagation calls for the same track `"T"`, the first at tier
`t1` and the second at tier `t2`, starting from the fixture state. -/
def twoCalls (t1 t2 : Nat) : Except SparseErr (Memory × TierTracks) := do
  let p1 ← addTieredTrackToMemory t1 "X - A" 200000 memT ttEmpty "T" 1 "uri:T"
  addTieredTrackToMemory t2 "X - A" 200000 p1.1 p1.2 "T" 1 "uri:T"

/-- The album's `duration_ms` after a (successful) call sequence. -/
def durationAfter (r : Except SparseErr (Memory × TierTracks)) : Option (Option Int) :=
  r.toOption.map (fun p => (pyGet p.1 "X - A").map Album.duration_ms)

/-- The album's `playlist_placements` after a (successful) call sequence. -/
def placementsAfter (r : Except SparseErr (Memory × TierTracks)) :
    Option (Option (List (String × ℚ))) :=
  r.toOption.map (fun p => (pyGet p.1 "X - A").map Album.playlist_placements)

/-- The album's `best_tracks` after a (successful) call sequence. -/
def bestTracksAfter (r : Except SparseErr (Memory × TierTracks)) :
    Option (Option (Finset String)) :=
  r.toOption.map (fun p => (pyGet p.1 "X - A").map Album.best_tracks)

/-! ### Symbolic evaluation of `__addTieredTrackToMemory` -/

theorem tier_key_1 : get_tier_key 1 = .ok "tier_1_tracks" := rfl

theorem tier_key_2 : get_tier_key 2 = .ok "tier_2_tracks" := rfl

theorem tier_key_3 : get_tier_key 3 = .ok "tier_3_tracks" := rfl

theorem track_key_eval (n : String) (hn : n ≠ "") (t : Nat) (ht : is_valid_tier t = true) :
    get_track_key n t = .ok (n ++ "_" ++ toString t) := by
  unfold get_track_key
  simp [hn, ht]

theorem key_app_1 (n : String) : n ++ "_" ++ toString (1 : Nat) = n ++ "_1" := by
  have h : ("_" : String) ++ toString (1 : Nat) = "_1" := by decide
  rw [String.append_assoc, h]

theorem key_app_2 (n : String) : n ++ "_" ++ toString (2 : Nat) = n ++ "_2" := by
  have h : ("_" : String) ++ toString (2 : Nat) = "_2" := by decide
  rw [String.append_assoc, h]

theorem key_app_3 (n : String) : n ++ "_" ++ toString (3 : Nat) = n ++ "_3" := by
  have h : ("_" : String) ++ toString (3 : Nat) = "_3" := by decide
  rw [String.append_assoc, h]

/-- Appending different suffixes to the same string gives different strings. -/
theorem key_ne (n a b : String) (hab : a ≠ b) : n ++ a ≠ n ++ b := by
  intro he
  apply hab
  have hd := congrArg String.data he
  simp only [String.data_append] at hd
  exact String.ext (List.append_cancel_left hd)

/-- One full evaluation of the routine at tier 1 on the normal path: the
placement `<name>_1` is written, the track ID is inserted into the tier-1 set,
the duration is added, and the routine returns (no recursion). -/
theorem addTiered_one_eq (k n id : String) (dur : Int) (sc : ℚ) (mem : Memory)
    (tt : TierTracks) (a : Album) (hn : n ≠ "") (hmem : pyGet mem k = some a)
    (hguard : "tier_1_tracks" ∉ tt.tier_1_tracks) :
    addTieredTrackToMemory 1 k dur mem tt n sc id =
      .ok (pySet mem k
            { a with
              playlist_placements := pySet a.playlist_placements (n ++ "_1") sc,
              duration_ms := a.duration_ms + dur },
           { tt with tier_1_tracks := insert id tt.tier_1_tracks }) := by
  show addTieredTrackToMemory (0 + 1) k dur mem tt n sc id = _
  rw [addTieredTrackToMemory]
  simp only [track_key_eval n hn 1 (by decide), tier_key_1, key_app_1, hmem,
    ofLookup, TierTracks.get, TierTracks.set, Except.instMonad, Bind.bind, Except.bind,
    Pure.pure, Except.pure]
  rw [tier_key_1]
  simp [hguard]

/-- One unfolding of the routine at tier 2: the placement `<name>_2` is written
and the routine recurses into tier 1, inserting the track ID into the tier-2 set
unless the (buggy) guard string `"tier_2_tracks"` is already stored there. -/
theorem addTiered_two_eq (k n id : String) (dur : Int) (sc : ℚ) (mem : Memory)
    (tt : TierTracks) (a : Album) (hn : n ≠ "") (hmem : pyGet mem k = some a) :
    addTieredTrackToMemory 2 k dur mem tt n sc id =
      (if "tier_2_tracks" ∈ tt.tier_2_tracks then
        addTieredTrackToMemory 1 k dur
          (pySet mem k
            { a with playlist_placements := pySet a.playlist_placements (n ++ "_2") sc })
          tt n sc id
      else
        addTieredTrackToMemory 1 k dur
          (pySet mem k
            { a with playlist_placements := pySet a.playlist_placements (n ++ "_2") sc })
          { tt with tier_2_tracks := insert id tt.tier_2_tracks } n sc id) := by
  show addTieredTrackToMemory (1 + 1) k dur mem tt n sc id = _
  rw [addTieredTrackToMemory]
  simp only [track_key_eval n hn 2 (by decide), tier_key_2, key_app_2, hmem,
    ofLookup, TierTracks.get, TierTracks.set, Except.instMonad, Bind.bind, Except.bind,
    Pure.pure, Except.pure]
  rw [tier_key_2]
  by_cases hm : "tier_2_tracks" ∈ tt.tier_2_tracks <;> simp [hm]

/-- One unfolding of the routine at tier 3: the placement `<name>_3` is written
and the routine recurses into tier 2; unless the (buggy) guard string
`"tier_3_tracks"` is stored in the tier-3 set, the track ID is inserted there
and added to the album's `best_tracks`. -/
theorem addTiered_three_eq (k n id : String) (dur : Int) (sc : ℚ) (mem : Memory)
    (tt : TierTracks) (a : Album) (hn : n ≠ "") (hmem : pyGet mem k = some a) :
    addTieredTrackToMemory 3 k dur mem tt n sc id =
      (if "tier_3_tracks" ∈ tt.tier_3_tracks then
        addTieredTrackToMemory 2 k dur
          (pySet mem k
            { a with playlist_placements := pySet a.playlist_placements (n ++ "_3") sc })
          tt n sc id
      else
        addTieredTrackToMemory 2 k dur
          (pySet mem k
            { a with
              playlist_placements := pySet a.playlist_placements (n ++ "_3") sc,
              best_tracks := insert id a.best_tracks })
          { tt with tier_3_tracks := insert id tt.tier_3_tracks } n sc id) := by
  show addTieredTrackToMemory (2 + 1) k dur mem tt n sc id = _
  rw [addTieredTrackToMemory]
  simp only [track_key_eval n hn 3 (by decide), tier_key_3, key_app_3, hmem,
    ofLookup, TierTracks.get, TierTracks.set, Except.instMonad, Bind.bind, Except.bind,
    Pure.pure, Except.pure]
  rw [tier_key_3]
  by_cases hm : "tier_3_tracks" ∈ tt.tier_3_tracks <;> simp [hm]

theorem pyGet_cons_self {κ α : Type} [DecidableEq κ] (k : κ) (v : α) (tl : List (κ × α)) :
    pyGet ((k, v) :: tl) k = some v := by simp [pyGet]

theorem pySet_cons_self {κ α : Type} [DecidableEq κ] (k : κ) (v v' : α) (tl : List (κ × α)) :
    pySet ((k, v) :: tl) k v' = (k, v') :: tl := by simp [pySet]

/-- `s` ends with `t` (character-level, like Python's `str.endswith`). -/
def strEndsWith (s t : String) : Bool :=
  decide (t.data.length ≤ s.data.length)
    && (s.data.drop (s.data.length - t.data.length) == t.data)

/-- C4: downward propagation.  Starting from an album record with no placements
and empty tier-track sets, a single call at tier 3 produces exactly the
placement keys `<name>_3`, `<name>_2`, `<name>_1` (each mapped to the track's
score), a tier-2 call produces `<name>_2` and `<name>_1` only, and a tier-1
call produces `<name>_1` only.  The trailing `pyGet … = none` conjuncts state
that the placement dicts produced by the tier-1 (resp. tier-2) call contain no
key for any higher tier: no call creates a placement above the supplied tier. -/
theorem downward_propagation (k n id : String) (dur : Int) (sc : ℚ) (a : Album)
    (hn : n ≠ "") (hpl : a.playlist_placements = []) :
    addTieredTrackToMemory 3 k dur [(k, a)] ⟨∅, ∅, ∅⟩ n sc id =
      .ok ([(k, { a with
          playlist_placements := [(n ++ "_3", sc), (n ++ "_2", sc), (n ++ "_1", sc)],
          best_tracks := insert id a.best_tracks,
          duration_ms := a.duration_ms + dur })],
        ⟨{id}, {id}, {id}⟩)
    ∧ addTieredTrackToMemory 2 k dur [(k, a)] ⟨∅, ∅, ∅⟩ n sc id =
      .ok ([(k, { a with
          playlist_placements := [(n ++ "_2", sc), (n ++ "_1", sc)],
          duration_ms := a.duration_ms + dur })],
        ⟨{id}, {id}, ∅⟩)
    ∧ addTieredTrackToMemory 1 k dur [(k, a)] ⟨∅, ∅, ∅⟩ n sc id =
      .ok ([(k, { a with
          playlist_placements := [(n ++ "_1", sc)],
          duration_ms := a.duration_ms + dur })],
        ⟨{id}, ∅, ∅⟩)
    ∧ pyGet [(n ++ "_1", sc)] (n ++ "_2") = none
    ∧ pyGet [(n ++ "_1", sc)] (n ++ "_3") = none
    ∧ pyGet [(n ++ "_2", sc), (n ++ "_1", sc)] (n ++ "_3") = none := by
  have h12 : n ++ "_1" ≠ n ++ "_2" := key_ne n "_1" "_2" (by decide)
  have h13 : n ++ "_1" ≠ n ++ "_3" := key_ne n "_1" "_3" (by decide)
  have h23 : n ++ "_2" ≠ n ++ "_3" := key_ne n "_2" "_3" (by decide)
  have h21 : n ++ "_2" ≠ n ++ "_1" := key_ne n "_2" "_1" (by decide)
  have h31 : n ++ "_3" ≠ n ++ "_1" := key_ne n "_3" "_1" (by decide)
  have h32 : n ++ "_3" ≠ n ++ "_2" := key_ne n "_3" "_2" (by decide)
  refine ⟨?_, ?_, ?_, by simp [pyGet, h12], by simp [pyGet, h13],
    by simp [pyGet, h23, h13]⟩
  · rw [addTiered_three_eq k n id dur sc _ _ a hn (pyGet_cons_self _ _ _)]
    simp only [Finset.not_mem_empty, if_false, pySet_cons_self]
    rw [addTiered_two_eq k n id dur sc _ _ _ hn (pyGet_cons_self _ _ _)]
    simp only [Finset.not_mem_empty, if_false, pySet_cons_self]
    rw [addTiered_one_eq k n id dur sc _ _ _ hn (pyGet_cons_self _ _ _) (by simp)]
    simp [pySet_cons_self, pySet, hpl, h32, h31, h21]
  · rw [addTiered_two_eq k n id dur sc _ _ a hn (pyGet_cons_self _ _ _)]
    simp only [Finset.not_mem_empty, if_false, pySet_cons_self]
    rw [addTiered_one_eq k n id dur sc _ _ _ hn (pyGet_cons_self _ _ _) (by simp)]
    simp [pySet_cons_self, pySet, hpl, h21]
  · rw [addTiered_one_eq k n id dur sc _ _ a hn (pyGet_cons_self _ _ _) (by simp)]
    simp [pySet_cons_self, pySet, hpl]

/-- C4 witness: the theorem applied to the concrete fixture album. -/
theorem downward_propagation_witness :
    addTieredTrackToMemory 3 "X - A" 200000 [("X - A", albumT)] ⟨∅, ∅, ∅⟩ "T" 1 "uri:T" =
      .ok ([("X - A", { albumT with
          playlist_placements := [("T" ++ "_3", 1), ("T" ++ "_2", 1), ("T" ++ "_1", 1)],
          best_tracks := insert "uri:T" albumT.best_tracks,
          duration_ms := albumT.duration_ms + 200000 })],
        ⟨{"uri:T"}, {"uri:T"}, {"uri:T"}⟩) :=
  (downward_propagation "X - A" "T" "uri:T" 200000 1 albumT (by decide) (by decide)).1

/-- C10: safety of the propagation routine.  For every tier in {1,2,3} and every
state of the tier-track sets in which none of the stored track-ID strings equals
one of the literal dict keys `"tier_1_tracks"`, `"tier_2_tracks"`,
`"tier_3_tracks"`, a call with a non-empty track name (on an album present in
memory) returns `Except.ok`: it terminates normally.  Since the tier-0 case of
the recursion and every invalid `get_track_key`/`get_tier_key` call return
`Except.error (.tierError …)` — which propagates — an `ok` result also shows the
recursion never reaches tier 0 and no `SparsePlaylistTierException` is raised. -/
theorem propagation_safe (tier : Nat) (k n id : String) (dur : Int) (sc : ℚ)
    (mem : Memory) (tt : TierTracks) (a : Album)
    (htier : 1 ≤ tier ∧ tier ≤ 3)
    (hn : n ≠ "")
    (hmem : pyGet mem k = some a)
    (hclean : ∀ key ∈ (["tier_1_tracks", "tier_2_tracks", "tier_3_tracks"] : List String),
        key ∉ tt.tier_1_tracks ∧ key ∉ tt.tier_2_tracks ∧ key ∉ tt.tier_3_tracks) :
    ∃ out, addTieredTrackToMemory tier k dur mem tt n sc id = Except.ok out := by
  obtain ⟨h1, -, -⟩ := hclean "tier_1_tracks" (by simp)
  obtain ⟨ht1, ht3⟩ := htier
  interval_cases tier
  · exact ⟨_, addTiered_one_eq k n id dur sc mem tt a hn hmem h1⟩
  · rw [addTiered_two_eq k n id dur sc mem tt a hn hmem]
    by_cases hm : "tier_2_tracks" ∈ tt.tier_2_tracks
    · rw [if_pos hm]
      exact ⟨_, addTiered_one_eq k n id dur sc _ _ _ hn (pyGet_pySet_self _ _ _) h1⟩
    · rw [if_neg hm]
      exact ⟨_, addTiered_one_eq k n id dur sc _ _ _ hn (pyGet_pySet_self _ _ _) h1⟩
  · rw [addTiered_three_eq k n id dur sc mem tt a hn hmem]
    by_cases hm : "tier_3_tracks" ∈ tt.tier_3_tracks
    · rw [if_pos hm]
      rw [addTiered_two_eq k n id dur sc _ _ _ hn (pyGet_pySet_self _ _ _)]
      by_cases hm2 : "tier_2_tracks" ∈ tt.tier_2_tracks
      · rw [if_pos hm2]
        exact ⟨_, addTiered_one_eq k n id dur sc _ _ _ hn (pyGet_pySet_self _ _ _) h1⟩
      · rw [if_neg hm2]
        exact ⟨_, addTiered_one_eq k n id dur sc _ _ _ hn (pyGet_pySet_self _ _ _) h1⟩
    · rw [if_neg hm]
      rw [addTiered_two_eq k n id dur sc _ _ _ hn (pyGet_pySet_self _ _ _)]
      by_cases hm2 : "tier_2_tracks" ∈
          ({ tt with tier_3_tracks := insert id tt.tier_3_tracks }).tier_2_tracks
      · rw [if_pos hm2]
        exact ⟨_, addTiered_one_eq k n id dur sc _ _ _ hn (pyGet_pySet_self _ _ _) h1⟩
      · rw [if_neg hm2]
        exact ⟨_, addTiered_one_eq k n id dur sc _ _ _ hn (pyGet_pySet_self _ _ _) h1⟩

/-- C10 witness: the safety theorem applied to the concrete fixture at tier 2. -/
theorem propagation_safe_witness :
    ∃ out, addTieredTrackToMemory 2 "X - A" 200000 memT ttEmpty "T" 1 "uri:T" =
      Except.ok out :=
  propagation_safe 2 "X - A" "T" "uri:T" 200000 1 memT ttEmpty albumT
    (by decide) (by decide) (by decide) (by decide)

/-- C1: `__addTieredTrackToMemory` is *not* idempotent, contradicting its own
docstring ("This method is idempotent.") and the comment guarding the counter
("Only add to best tracks and increase album duration if this track hasn't been
counted yet."): the guard at line 141 tests `tier_key not in
tier_tracks[tier_key]` — the tier-key string, not `track_id` — so it is always
true, and a second identical tier-1 call adds the track's duration again:
duration is 200000 after one call and 400000 after two identical calls, while
`playlist_placements` and `best_tracks` are unchanged by the repeat. -/
theorem propagation_not_idempotent_duration :
    durationAfter (twoCalls 1 1) = some (some 400000)
    ∧ durationAfter
        (addTieredTrackToMemory 1 "X - A" 200000 memT ttEmpty "T" 1 "uri:T")
      = some (some 200000)
    ∧ placementsAfter (twoCalls 1 1) =
        placementsAfter (addTieredTrackToMemory 1 "X - A" 200000 memT ttEmpty "T" 1 "uri:T")
    ∧ bestTracksAfter (twoCalls 1 1) =
        bestTracksAfter (addTieredTrackToMemory 1 "X - A" 200000 memT ttEmpty "T" 1 "uri:T")
    ∧ (400000 : Int) ≠ 200000 := by
  exact ⟨by decide, by decide, by decide, by decide, by decide⟩

/-- C2: a track's duration is *not* counted exactly once per `_1` placement key.
With the same broken guard (line 141), a legal high-to-low sequence that sees
track `"T"` at tier 2 and then at tier 1 produces exactly one placement key
ending in `_1`, yet the album's `duration_ms` ends at 400000 = 2 × 200000: the
duration was added once by the tier-2 call's recursion into tier 1 and again by
the explicit tier-1 call. -/
theorem duration_counted_twice_not_once :
    placementsAfter (twoCalls 2 1) = some (some [("T_2", 1), ("T_1", 1)])
    ∧ (twoCalls 2 1).toOption.map
        (fun p => (pyGet p.1 "X - A").map
          (fun a => (a.playlist_placements.filter (fun kv => strEndsWith kv.1 "_1")).length))
      = some (some 1)
    ∧ durationAfter (twoCalls 2 1) = some (some 400000)
    ∧ (400000 : Int) ≠ 200000 := by
  exact ⟨by decide, by decide, by decide, by decide⟩

/-! ## `__executeTierTrackDiff` (cross-tier dedup before restoration) -/

/-- `AlbumRanker.__executeTierTrackDiff`: two sequential dict assignments —
`tier_tracks[get_tier_key(2)] = tier2.difference(tier3)` and then
`tier_tracks[get_tier_key(1)] = tier1.difference(tier3 | tier2)`, where the
second statement reads the *already-updated* tier-2 set. -/
def executeTierTrackDiff (tt : TierTracks) : TierTracks :=
  let tt := { tt with tier_2_tracks := tt.tier_2_tracks \ tt.tier_3_tracks }
  let tt := { tt with
    tier_1_tracks := tt.tier_1_tracks \ (tt.tier_3_tracks ∪ tt.tier_2_tracks) }
  tt

/-- C7: cross-tier dedup.  After `__executeTierTrackDiff`, tier 3 is unchanged,
tier 2 equals the old tier 2 minus tier 3, tier 1 equals the old tier 1 minus
(tier 3 ∪ old tier 2) — the code subtracts the *updated* tier 2, which is
equal — the three sets are pairwise disjoint, every ID sits exactly in the set
of its highest observed tier, and in particular an ID present in both tier 3 and
tier 1 beforehand ends up only in tier 3. -/
theorem tier_track_diff_spec (tt : TierTracks) :
    (executeTierTrackDiff tt).tier_3_tracks = tt.tier_3_tracks
    ∧ (executeTierTrackDiff tt).tier_2_tracks = tt.tier_2_tracks \ tt.tier_3_tracks
    ∧ (executeTierTrackDiff tt).tier_1_tracks
        = tt.tier_1_tracks \ (tt.tier_3_tracks ∪ tt.tier_2_tracks)
    ∧ Disjoint (executeTierTrackDiff tt).tier_2_tracks (executeTierTrackDiff tt).tier_3_tracks
    ∧ Disjoint (executeTierTrackDiff tt).tier_1_tracks (executeTierTrackDiff tt).tier_3_tracks
    ∧ Disjoint (executeTierTrackDiff tt).tier_1_tracks (executeTierTrackDiff tt).tier_2_tracks
    ∧ (∀ x, x ∈ (executeTierTrackDiff tt).tier_3_tracks ↔ x ∈ tt.tier_3_tracks)
    ∧ (∀ x, x ∈ (executeTierTrackDiff tt).tier_2_tracks ↔
        x ∈ tt.tier_2_tracks ∧ x ∉ tt.tier_3_tracks)
    ∧ (∀ x, x ∈ (executeTierTrackDiff tt).tier_1_tracks ↔
        x ∈ tt.tier_1_tracks ∧ x ∉ tt.tier_3_tracks ∧ x ∉ tt.tier_2_tracks)
    ∧ (∀ x, x ∈ tt.tier_3_tracks → x ∈ tt.tier_1_tracks →
        x ∈ (executeTierTrackDiff tt).tier_3_tracks
        ∧ x ∉ (executeTierTrackDiff tt).tier_1_tracks
        ∧ x ∉ (executeTierTrackDiff tt).tier_2_tracks) := by
  unfold executeTierTrackDiff
  dsimp only
  refine ⟨rfl, rfl, by rw [Finset.union_sdiff_self_eq_union], ?_, ?_, ?_,
    fun x => Iff.rfl, fun x => Finset.mem_sdiff, fun x => ?_, fun x h3 h1 => ?_⟩
  · rw [Finset.disjoint_left]
    intro x hx hc
    simp only [Finset.mem_sdiff, Finset.mem_union] at hx hc
    tauto
  · rw [Finset.disjoint_left]
    intro x hx hc
    simp only [Finset.mem_sdiff, Finset.mem_union] at hx hc
    tauto
  · rw [Finset.disjoint_left]
    intro x hx hc
    simp only [Finset.mem_sdiff, Finset.mem_union] at hx hc
    tauto
  · simp only [Finset.mem_sdiff, Finset.mem_union]
    tauto
  · refine ⟨h3, ?_, ?_⟩ <;> simp only [Finset.mem_sdiff, Finset.mem_union] <;> tauto

/-! ## `__consolidateAlbums`, first pass: merging subset/duplicate editions -/

/-- `AlbumRanker.__isSubset`: every track name of `subsetAlbum` appears in
`supersetAlbum`'s track names. -/
def isSubsetAlbum (subsetAlbum supersetAlbum : Album) : Bool :=
  subsetAlbum.album_track_names.all (fun track => supersetAlbum.album_track_names.contains track)

/-- `AlbumRanker.__needsConsolidation`: same artists, name and year — or the
smaller album's tracks are a subset of the larger album's. -/
def needsConsolidation (smallerAlbum largerAlbum : Album) : Bool :=
  (smallerAlbum.artists == largerAlbum.artists
    && smallerAlbum.name == largerAlbum.name
    && smallerAlbum.year == largerAlbum.year)
  || isSubsetAlbum smallerAlbum largerAlbum

/-- Python `d.update(other)`: write every entry of `other` into `d` in order,
so on a key collision `other`'s value overwrites `d`'s. -/
def dictUpdate (d other : List (String × ℚ)) : List (String × ℚ) :=
  other.foldl (fun acc kv => pySet acc kv.1 kv.2) d

/-- The inner-loop condition of the first pass:
`memory[l].highest_possible_score < memory[r].highest_possible_score` and
`__needsConsolidation(memory[l], memory[r])`, read from the current memory. -/
def qualifies (mem : Memory) (l r : String) : Bool :=
  match pyGet mem l, pyGet mem r with
  | some al, some ar =>
      decide (al.highest_possible_score < ar.highest_possible_score)
        && needsConsolidation al ar
  | _, _ => false

/-- The inner `for r in album_keys` loop with its `break`: the first qualifying
candidate, if any. -/
def findConsolidationTarget (mem : Memory) (l : String) (keys : List String) : Option String :=
  keys.find? (qualifies mem l)

/-- The merge body: `memory[r].playlist_placements.update(memory[l].…)` (so
`l`'s values overwrite `r`'s on collision) and
`memory[r].best_tracks.update(memory[l].best_tracks)`. -/
def mergeAlbums (mem : Memory) (l r : String) : Memory :=
  match pyGet mem l, pyGet mem r with
  | some al, some ar =>
      pySet mem r
        { ar with
          playlist_placements := dictUpdate ar.playlist_placements al.playlist_placements,
          best_tracks := ar.best_tracks ∪ al.best_tracks }
  | _, _ => mem

/-- One iteration of the outer `for l in album_keys` loop: merge into the first
qualifying candidate (if any) and mark `l` for deletion. -/
def consolidateStep (keys : List String) (acc : Memory × List String) (l : String) :
    Memory × List String :=
  match findConsolidationTarget acc.1 l keys with
  | some r => (mergeAlbums acc.1 l r, acc.2 ++ [l])
  | none => acc

/-- The first pass of `__consolidateAlbums`: scan every ordered pair, merge
subset albums into their first qualifying superset, then delete the marked keys
(two-pass: mark, then delete). -/
def consolidatePhase1 (mem : Memory) : Memory :=
  let keys := mem.map Prod.fst
  let res := keys.foldl (consolidateStep keys) (mem, [])
  res.1.filter (fun kv => !(decide (kv.1 ∈ res.2)))

theorem pyGet_eq_none_of_not_mem {κ α : Type} [DecidableEq κ] (l : List (κ × α)) (k : κ)
    (h : k ∉ l.map Prod.fst) : pyGet l k = none := by
  induction l with
  | nil => rfl
  | cons hd tl ih =>
      obtain ⟨k0, v0⟩ := hd
      simp only [List.map_cons, List.mem_cons] at h
      push_neg at h
      simp only [pyGet]
      rw [if_neg (fun he => h.1 he.symm)]
      exact ih h.2

/-- Pointwise description of `dictUpdate` when the overriding dict has no
duplicate keys: a key present in `other` takes `other`'s value, anything else
keeps `d`'s value. -/
theorem pyGet_dictUpdate (other : List (String × ℚ)) :
    ∀ (d : List (String × ℚ)), (other.map Prod.fst).Nodup →
      ∀ key, pyGet (dictUpdate d other) key
        = (pyGet other key).elim (pyGet d key) some := by
  induction other with
  | nil => intro d _ key; rfl
  | cons hd tl ih =>
      obtain ⟨k0, v0⟩ := hd
      intro d hnd key
      simp only [List.map_cons, List.nodup_cons] at hnd
      have step : dictUpdate d ((k0, v0) :: tl) = dictUpdate (pySet d k0 v0) tl := rfl
      rw [step, ih (pySet d k0 v0) hnd.2 key]
      by_cases hk : k0 = key
      · subst hk
        have htl : pyGet tl k0 = none :=
          pyGet_eq_none_of_not_mem tl k0 (by simpa using hnd.1)
        simp [pyGet, htl, pyGet_pySet_self]
      · simp [pyGet, hk, pyGet_pySet_ne d k0 key v0 hk]

/-- `List.find?` returns the first match: the list splits around the witness,
with every earlier element failing the predicate. -/
theorem find?_split {α : Type} (p : α → Bool) :
    ∀ (l : List α) (a : α), l.find? p = some a →
      ∃ pre post, l = pre ++ a :: post ∧ (∀ x ∈ pre, p x = false) ∧ p a = true := by
  intro l
  induction l with
  | nil => intro a h; simp [List.find?] at h
  | cons hd tl ih =>
      intro a h
      by_cases hp : p hd = true
      · rw [List.find?_cons_of_pos _ hp] at h
        obtain rfl : hd = a := by injection h
        exact ⟨[], tl, rfl, by simp, hp⟩
      · rw [List.find?_cons_of_neg _ (by simpa using hp)] at h
        obtain ⟨pre, post, heq, hpre, hpa⟩ := ih a h
        exact ⟨hd :: pre, post, by rw [heq]; rfl,
          by
            intro x hx
            rcases List.mem_cons.mp hx with rfl | hx
            · simpa using hp
            · exact hpre x hx,
          hpa⟩

/-- C5 counterexample: albums `L` (tracks `{A}`, score 2 recorded under key
`"A_1"`, highestPossibleScore 3) and `R` (tracks `{A,B}`, score 1 under the same
key `"A_1"`, highestPossibleScore 6).  `L` merges into `R`, but after
consolidation the surviving `R` holds `L`'s value 2 for `"A_1"`, not `R`'s
value 1 — Python's `dict.update` lets the *smaller* album's values win on a key
collision, contradicting the claim that R's values win. -/
def albumL : Album :=
  { artists := "X", name := "Alb", highest_possible_score := 3, year := 2020,
    duration_ms := 2400000, album_track_names := ["A"],
    playlist_placements := [("A_1", 2)], best_tracks := ∅ }

def albumR : Album :=
  { artists := "X", name := "Alb (Deluxe)", highest_possible_score := 6, year := 2020,
    duration_ms := 2400000, album_track_names := ["A", "B"],
    playlist_placements := [("A_1", 1)], best_tracks := ∅ }

def memC5 : Memory := [("X - Alb", albumL), ("X - Alb (Deluxe)", albumR)]

theorem consolidation_r_values_do_not_win :
    (consolidatePhase1 memC5).map (fun kv => (kv.1, kv.2.playlist_placements))
      = [("X - Alb (Deluxe)", [("A_1", 2)])]
    ∧ pyGet albumR.playlist_placements "A_1" = some 1
    ∧ (2 : ℚ) ≠ 1 := by
  exact ⟨by decide, by decide, by decide⟩

/-- C5 (amended): when a smaller album `L` merges into a larger album `R`
(`L.highestPossibleScore < R.highestPossibleScore` and `needsConsolidation`),
`L`'s placements are unioned into `R`'s placements with **L's** values winning
on any key collision (Python `dict.update` semantics), `L`'s `bestTracks` are
unioned into `R`'s, `L` is marked for deletion, no album other than `R` is
modified by `L`'s iteration, and `R` is the *first* qualifying candidate —
every earlier candidate fails the test and none after `R` is compared. -/
theorem consolidation_merge_spec (mem : Memory) (dels keys : List String)
    (l r : String) (al ar : Album)
    (hfind : findConsolidationTarget mem l keys = some r)
    (hal : pyGet mem l = some al) (har : pyGet mem r = some ar)
    (hnodup : (al.playlist_placements.map Prod.fst).Nodup) :
    (∃ pre post, keys = pre ++ r :: post ∧ (∀ x ∈ pre, qualifies mem l x = false)
       ∧ qualifies mem l r = true)
    ∧ pyGet (consolidateStep keys (mem, dels) l).1 r
        = some { ar with
            playlist_placements := dictUpdate ar.playlist_placements al.playlist_placements,
            best_tracks := ar.best_tracks ∪ al.best_tracks }
    ∧ (∀ key, pyGet (dictUpdate ar.playlist_placements al.playlist_placements) key
        = (pyGet al.playlist_placements key).elim (pyGet ar.playlist_placements key) some)
    ∧ l ∈ (consolidateStep keys (mem, dels) l).2
    ∧ (∀ k', k' ≠ r → pyGet (consolidateStep keys (mem, dels) l).1 k' = pyGet mem k') := by
  have hstep : consolidateStep keys (mem, dels) l = (mergeAlbums mem l r, dels ++ [l]) := by
    unfold consolidateStep
    rw [hfind]
  have hmerge : mergeAlbums mem l r =
      pySet mem r
        { ar with
          playlist_placements := dictUpdate ar.playlist_placements al.playlist_placements,
          best_tracks := ar.best_tracks ∪ al.best_tracks } := by
    unfold mergeAlbums
    rw [hal, har]
  refine ⟨find?_split _ keys r hfind, ?_, pyGet_dictUpdate _ _ hnodup, ?_, ?_⟩
  · rw [hstep, hmerge]
    exact pyGet_pySet_self _ _ _
  · rw [hstep]; simp
  · intro k' hk'
    rw [hstep, hmerge]
    exact pyGet_pySet_ne _ _ _ _ (fun he => hk' he.symm)

/-- C5 witness: the amended theorem applied to the concrete two-album memory
`memC5` (`L = "X - Alb"` merging into `R = "X - Alb (Deluxe)"`). -/
theorem consolidation_merge_spec_witness :
    pyGet (consolidateStep (memC5.map Prod.fst) (memC5, []) "X - Alb").1 "X - Alb (Deluxe)"
      = some { albumR with
          playlist_placements := dictUpdate albumR.playlist_placements albumL.playlist_placements,
          best_tracks := albumR.best_tracks ∪ albumL.best_tracks }
    ∧ "X - Alb" ∈ (consolidateStep (memC5.map Prod.fst) (memC5, []) "X - Alb").2 := by
  have h := consolidation_merge_spec memC5 [] (memC5.map Prod.fst)
    "X - Alb" "X - Alb (Deluxe)" albumL albumR
    (by decide) (by decide) (by decide) (by decide)
  exact ⟨h.2.1, h.2.2.2.1⟩

/-! ## `__consolidateAlbums`, second pass: overrides and the short-album filter -/

/-- An entry of the ranker override file: optional replacement values for
exactly the four fields the code reads
(`highest_possible_score`, `year`, `name`, `artists`). -/
structure Override where
  highest_possible_score : Option ℚ
  year : Option Int
  name : Option String
  artists : Option String
deriving DecidableEq

/-- The four `if … in override` assignments applied to an album. -/
def applyOverride (a : Album) (o : Override) : Album :=
  let a := match o.highest_possible_score with
    | some v => { a with highest_possible_score := v }
    | none => a
  let a := match o.year with
    | some v => { a with year := v }
    | none => a
  let a := match o.name with
    | some v => { a with name := v }
    | none => a
  match o.artists with
    | some v => { a with artists := v }
    | none => a

/-- The second pass of `__consolidateAlbums`: walk the (post-merge) memory in
key order; a too-short album is marked for deletion, otherwise its override (if
any) is applied in place; finally the marked keys are deleted.
`ov` models `configs.get_ranker_override_by_album_key`. -/
def consolidatePhase2 (mem : Memory) (threshold_min : Int)
    (ov : String → Option Override) : Memory :=
  let threshold_ms := threshold_min * 60 * 1000
  let res := mem.foldl
    (fun (acc : Memory × List String) kv =>
      if kv.2.duration_ms < threshold_ms then (acc.1 ++ [kv], acc.2 ++ [kv.1])
      else match ov kv.1 with
        | some o => (acc.1 ++ [(kv.1, applyOverride kv.2 o)], acc.2)
        | none => (acc.1 ++ [kv], acc.2))
    ([], [])
  res.1.filter (fun kv => !(decide (kv.1 ∈ res.2)))

/-- `AlbumRanker.__consolidateAlbums`: merge pass, then override/short-filter
pass. -/
def consolidateAlbums (mem : Memory) (threshold_min : Int)
    (ov : String → Option Override) : Memory :=
  consolidatePhase2 (consolidatePhase1 mem) threshold_min ov

/-- What the second pass writes for one entry (before the deletion filter). -/
def phase2Row (threshold_ms : Int) (ov : String → Option Override)
    (kv : String × Album) : String × Album :=
  if kv.2.duration_ms < threshold_ms then kv
  else (kv.1, ((ov kv.1).elim kv.2 (fun o => applyOverride kv.2 o)))

/-- The keys the second pass marks for deletion. -/
def shortKeys (threshold_ms : Int) (mem : Memory) : List String :=
  (mem.filter (fun kv => decide (kv.2.duration_ms < threshold_ms))).map Prod.fst

theorem phase2Row_fst (t : Int) (ov : String → Option Override) (kv : String × Album) :
    (phase2Row t ov kv).1 = kv.1 := by
  unfold phase2Row
  split <;> rfl

theorem phase2_fold_eq (t : Int) (ov : String → Option Override) :
    ∀ (mem : Memory) (A : Memory) (D : List String),
      mem.foldl
        (fun (acc : Memory × List String) kv =>
          if kv.2.duration_ms < t then (acc.1 ++ [kv], acc.2 ++ [kv.1])
          else match ov kv.1 with
            | some o => (acc.1 ++ [(kv.1, applyOverride kv.2 o)], acc.2)
            | none => (acc.1 ++ [kv], acc.2))
        (A, D)
      = (A ++ mem.map (phase2Row t ov), D ++ shortKeys t mem) := by
  intro mem
  induction mem with
  | nil => intro A D; simp [shortKeys]
  | cons kv rest ih =>
      intro A D
      rw [List.foldl_cons]
      by_cases hshort : kv.2.duration_ms < t
      · rw [if_pos hshort, ih]
        simp [phase2Row, hshort, shortKeys, List.filter_cons, List.append_assoc]
      · rw [if_neg hshort]
        have hrow : phase2Row t ov kv = (kv.1, ((ov kv.1).elim kv.2 (fun o => applyOverride kv.2 o))) := by
          unfold phase2Row
          rw [if_neg hshort]
        cases hov : ov kv.1 with
        | some o =>
            rw [ih]
            simp [hrow, hov, shortKeys, List.filter_cons, hshort, List.append_assoc]
        | none =>
            rw [ih]
            simp [hrow, hov, shortKeys, List.filter_cons, hshort, List.append_assoc]

theorem shortKeys_subset (t : Int) (mem : Memory) :
    ∀ x ∈ shortKeys t mem, x ∈ mem.map Prod.fst := by
  intro x hx
  unfold shortKeys at hx
  obtain ⟨kv, hkv, rfl⟩ := List.mem_map.mp hx
  exact List.mem_map.mpr ⟨kv, List.mem_of_mem_filter hkv, rfl⟩

theorem phase2_filter_eq (t : Int) (ov : String → Option Override) :
    ∀ (mem : Memory) (dels : List String),
      (mem.map Prod.fst).Nodup → (∀ x ∈ dels, x ∉ mem.map Prod.fst) →
      (mem.map (phase2Row t ov)).filter
          (fun kv => !(decide (kv.1 ∈ dels ++ shortKeys t mem)))
        = (mem.filter (fun kv => !decide (kv.2.duration_ms < t))).map (phase2Row t ov) := by
  intro mem
  induction mem with
  | nil => intro dels _ _; rfl
  | cons kv rest ih =>
      intro dels hnd hdels
      simp only [List.map_cons, List.nodup_cons] at hnd
      have hkv_dels : kv.1 ∉ dels := fun hc => hdels kv.1 hc (by simp)
      by_cases hshort : kv.2.duration_ms < t
      · have hsk : shortKeys t (kv :: rest) = kv.1 :: shortKeys t rest := by
          unfold shortKeys
          rw [List.filter_cons, if_pos (by simpa using hshort)]
          rfl
        rw [hsk, List.map_cons, List.filter_cons]
        have hmem : (phase2Row t ov kv).1 ∈ dels ++ kv.1 :: shortKeys t rest := by
          rw [phase2Row_fst]
          simp
        rw [if_neg (by simp [hmem])]
        have hre : dels ++ kv.1 :: shortKeys t rest = (dels ++ [kv.1]) ++ shortKeys t rest := by
          simp
        rw [hre, ih (dels ++ [kv.1]) hnd.2
          (by
            intro x hx
            rcases List.mem_append.mp hx with hx | hx
            · exact fun hc => hdels x hx (by simp [hc])
            · simp only [List.mem_singleton] at hx
              subst hx
              exact hnd.1)]
        rw [List.filter_cons, if_neg (by simp [hshort])]
      · have hsk : shortKeys t (kv :: rest) = shortKeys t rest := by
          unfold shortKeys
          rw [List.filter_cons, if_neg (by simpa using hshort)]
        rw [hsk, List.map_cons, List.filter_cons]
        have hnotin : kv.1 ∉ dels ++ shortKeys t rest := by
          intro hc
          rcases List.mem_append.mp hc with hc | hc
          · exact hkv_dels hc
          · exact hnd.1 (shortKeys_subset t rest kv.1 hc)
        have hmem : (phase2Row t ov kv).1 ∉ dels ++ shortKeys t rest := by
          rw [phase2Row_fst]
          exact hnotin
        rw [if_pos (by simp [hmem]), List.filter_cons, if_pos (by simp [hshort]),
          List.map_cons, ih dels hnd.2 (fun x hx hc => hdels x hx (by simp [hc]))]

theorem applyOverride_fields (a : Album) (o : Override) :
    (applyOverride a o).duration_ms = a.duration_ms
    ∧ (applyOverride a o).playlist_placements = a.playlist_placements
    ∧ (applyOverride a o).best_tracks = a.best_tracks
    ∧ (applyOverride a o).album_track_names = a.album_track_names := by
  obtain ⟨h, y, n, ar⟩ := o
  cases h <;> cases y <;> cases n <;> cases ar <;> simp [applyOverride]

/-- C8: the short-album filter.  After consolidation completes, every album left
in memory has `duration_ms ≥ albumLengthThresholdMinutes × 60000`; the surviving
memory is exactly the post-merge memory with the short albums deleted *unchanged*
(their override is never applied, so an override cannot rescue a too-short
album) and each survivor replaced by its override application; and an override
can only change `highest_possible_score`, `year`, `name`, `artists` — never
`duration_ms` (nor placements, best tracks or track names). -/
theorem short_album_filter_spec (mem : Memory) (thr : Int) (ov : String → Option Override)
    (hnd : ((consolidatePhase1 mem).map Prod.fst).Nodup) :
    (∀ kv ∈ consolidateAlbums mem thr ov, thr * 60 * 1000 ≤ kv.2.duration_ms)
    ∧ consolidateAlbums mem thr ov
        = ((consolidatePhase1 mem).filter
            (fun kv => !decide (kv.2.duration_ms < thr * 60 * 1000))).map
            (fun kv => (kv.1, ((ov kv.1).elim kv.2 (fun o => applyOverride kv.2 o))))
    ∧ (∀ a o, (applyOverride a o).duration_ms = a.duration_ms
        ∧ (applyOverride a o).playlist_placements = a.playlist_placements
        ∧ (applyOverride a o).best_tracks = a.best_tracks
        ∧ (applyOverride a o).album_track_names = a.album_track_names) := by
  have hmain : consolidateAlbums mem thr ov
      = ((consolidatePhase1 mem).filter
          (fun kv => !decide (kv.2.duration_ms < thr * 60 * 1000))).map
          (fun kv => (kv.1, ((ov kv.1).elim kv.2 (fun o => applyOverride kv.2 o)))) := by
    unfold consolidateAlbums consolidatePhase2
    dsimp only
    rw [phase2_fold_eq (thr * 60 * 1000) ov (consolidatePhase1 mem) [] []]
    have hf := phase2_filter_eq (thr * 60 * 1000) ov (consolidatePhase1 mem) [] hnd (by simp)
    simp only [List.nil_append] at hf ⊢
    rw [hf]
    apply List.map_congr_left
    intro kv hkv
    have hlong : ¬ kv.2.duration_ms < thr * 60 * 1000 := by
      have := List.of_mem_filter hkv
      simpa using this
    unfold phase2Row
    rw [if_neg hlong]
  refine ⟨?_, hmain, applyOverride_fields⟩
  intro kv hkv
  rw [hmain] at hkv
  obtain ⟨kv0, hkv0, rfl⟩ := List.mem_map.mp hkv
  have hlong : ¬ kv0.2.duration_ms < thr * 60 * 1000 := by
    have := List.of_mem_filter hkv0
    simpa using this
  have hdur : ((ov kv0.1).elim kv0.2 (fun o => applyOverride kv0.2 o)).duration_ms
      = kv0.2.duration_ms := by
    cases ov kv0.1 with
    | some o => exact (applyOverride_fields kv0.2 o).1
    | none => rfl
  simpa [hdur] using not_lt.mp hlong

/-- C8 witness: the theorem applied to the two-album memory `memC5` with a
40-minute threshold and no overrides (both albums are 40 minutes long; after the
merge pass only `R` survives, and it survives the length filter). -/
theorem short_album_filter_spec_witness :
    consolidateAlbums memC5 40 (fun _ => none)
      = ((consolidatePhase1 memC5).filter
          (fun kv => !decide (kv.2.duration_ms < 40 * 60 * 1000))).map
          (fun kv => (kv.1,
            (((fun _ => none : String → Option Override) kv.1).elim kv.2
              (fun o => applyOverride kv.2 o)))) :=
  (short_album_filter_spec memC5 40 (fun _ => none) (by decide)).2.1

/-! ## `__writeAlbumRankerResults` (report writer and yearly warning) -/

/-- One report row, as `__getOutputRowFromAlbum` computes it: artists, name,
year, `sum(playlist_placements.values())`, `highest_possible_score`, and the
`best_tracks` set.  (The byte-level CSV quoting is abstracted away: the claims
are about which rows are produced, not about string formatting.) -/
structure OutputRow where
  artists : String
  name : String
  year : Int
  total_score : ℚ
  highest_possible_score : ℚ
  best_tracks : Finset String
deriving DecidableEq

def getOutputRowFromAlbum (album : Album) : OutputRow :=
  { artists := album.artists, name := album.name, year := album.year,
    total_score := (album.playlist_placements.map Prod.snd).sum,
    highest_possible_score := album.highest_possible_score,
    best_tracks := album.best_tracks }

/-- The `year_counts` update inside the writer's loop: increment the count for
the album's year, creating the entry at 1 if absent. -/
def yearCountStep (acc : List (Int × Nat)) (y : Int) : List (Int × Nat) :=
  match pyGet acc y with
  | some c => pySet acc y (c + 1)
  | none => pySet acc y 1

/-- `year_counts` after the writer's loop. -/
def yearCounts (mem : Memory) : List (Int × Nat) :=
  mem.foldl (fun acc kv => yearCountStep acc kv.2.year) []

/-- `AlbumRanker.__writeAlbumRankerResults`: the rows written (one per album,
in memory order; `year_counts` is maintained in the same loop) and the years
for which the final loop logs its warning — `year_counts[key] >
tier_3_yearly_threshold`, iterated in `year_counts` insertion order.  The
warning is only a log line; it produces no change to the rows. -/
def writeAlbumRankerResults (mem : Memory) (tier_3_yearly_threshold : Int) :
    List OutputRow × List Int :=
  let res := mem.foldl
    (fun (acc : List OutputRow × List (Int × Nat)) kv =>
      (acc.1 ++ [getOutputRowFromAlbum kv.2], yearCountStep acc.2 kv.2.year))
    ([], [])
  (res.1,
   (res.2.filter (fun yc => decide ((yc.2 : Int) > tier_3_yearly_threshold))).map Prod.fst)

theorem write_fold_eq :
    ∀ (mem : Memory) (A : List OutputRow) (D : List (Int × Nat)),
      mem.foldl
        (fun (acc : List OutputRow × List (Int × Nat)) kv =>
          (acc.1 ++ [getOutputRowFromAlbum kv.2], yearCountStep acc.2 kv.2.year))
        (A, D)
      = (A ++ mem.map (fun kv => getOutputRowFromAlbum kv.2),
         mem.foldl (fun acc kv => yearCountStep acc kv.2.year) D) := by
  intro mem
  induction mem with
  | nil => intro A D; simp
  | cons kv rest ih =>
      intro A D
      rw [List.foldl_cons, ih]
      simp [List.append_assoc]

theorem pyGet_yearCountStep_ne (acc : List (Int × Nat)) (z y : Int) (h : z ≠ y) :
    pyGet (yearCountStep acc z) y = pyGet acc y := by
  unfold yearCountStep
  cases pyGet acc z <;> exact pyGet_pySet_ne acc z y _ h

/-- The running `year_counts` dict holds, for each year, exactly the number of
albums of that year seen so far. -/
theorem yearCounts_get :
    ∀ (mem : Memory) (acc : List (Int × Nat)) (y : Int),
      pyGet (mem.foldl (fun acc kv => yearCountStep acc kv.2.year) acc) y
        = match pyGet acc y with
          | some c0 => some (c0 + (mem.filter (fun kv => decide (kv.2.year = y))).length)
          | none =>
              if (mem.filter (fun kv => decide (kv.2.year = y))).length = 0 then none
              else some ((mem.filter (fun kv => decide (kv.2.year = y))).length) := by
  intro mem
  induction mem with
  | nil =>
      intro acc y
      cases hacc : pyGet acc y <;> simp [hacc]
  | cons kv rest ih =>
      intro acc y
      rw [List.foldl_cons, ih]
      by_cases hy : kv.2.year = y
      · subst hy
        unfold yearCountStep
        cases hacc : pyGet acc kv.2.year with
        | some c0 =>
            simp only [pyGet_pySet_self, List.filter_cons, decide_True, if_true,
              List.length_cons]
            simp
            omega
        | none =>
            simp [pyGet_pySet_self, List.filter_cons, Nat.add_comm]
      · rw [pyGet_yearCountStep_ne acc kv.2.year y hy]
        have hfil : List.filter (fun kv => decide (kv.2.year = y)) (kv :: rest)
            = List.filter (fun kv => decide (kv.2.year = y)) rest := by
          simp [List.filter_cons, hy]
        rw [hfil]

theorem pyGet_mem {κ α : Type} [DecidableEq κ] :
    ∀ (l : List (κ × α)) (k : κ) (v : α), pyGet l k = some v → (k, v) ∈ l := by
  intro l
  induction l with
  | nil => intro k v h; simp [pyGet] at h
  | cons hd tl ih =>
      obtain ⟨k0, v0⟩ := hd
      intro k v h
      simp only [pyGet] at h
      by_cases hk : k0 = k
      · rw [if_pos hk] at h
        subst hk
        obtain rfl : v0 = v := by injection h
        simp
      · rw [if_neg hk] at h
        exact List.mem_cons_of_mem _ (ih k v h)

theorem mem_pyGet {κ α : Type} [DecidableEq κ] :
    ∀ (l : List (κ × α)), (l.map Prod.fst).Nodup →
      ∀ (k : κ) (v : α), (k, v) ∈ l → pyGet l k = some v := by
  intro l
  induction l with
  | nil => intro _ k v h; simp at h
  | cons hd tl ih =>
      obtain ⟨k0, v0⟩ := hd
      intro hnd k v h
      simp only [List.map_cons, List.nodup_cons] at hnd
      rcases List.mem_cons.mp h with heq | htl
      · obtain ⟨rfl, rfl⟩ := Prod.mk.injEq .. ▸ And.intro (congrArg Prod.fst heq) (congrArg Prod.snd heq)
        simp [pyGet]
      · have hk : k0 ≠ k := by
          rintro rfl
          exact hnd.1 (List.mem_map.mpr ⟨(k0, v), htl, rfl⟩)
        simp only [pyGet, if_neg hk]
        exact ih hnd.2 k v htl

theorem pySet_map_fst {κ α : Type} [DecidableEq κ] :
    ∀ (l : List (κ × α)) (k : κ) (v : α),
      (pySet l k v).map Prod.fst
        = if k ∈ l.map Prod.fst then l.map Prod.fst else l.map Prod.fst ++ [k] := by
  intro l
  induction l with
  | nil => intro k v; simp [pySet]
  | cons hd tl ih =>
      obtain ⟨k0, v0⟩ := hd
      intro k v
      by_cases hk : k0 = k
      · subst hk
        simp [pySet]
      · simp only [pySet, if_neg hk, List.map_cons, ih]
        by_cases hmem : k ∈ tl.map Prod.fst
        · rw [if_pos hmem, if_pos (by simp [hmem])]
        · rw [if_neg hmem, if_neg (by
            simp only [List.mem_cons]
            push_neg
            exact ⟨fun h => hk h.symm, hmem⟩), List.cons_append]

theorem nodup_keys_pySet {κ α : Type} [DecidableEq κ] (l : List (κ × α)) (k : κ) (v : α)
    (h : (l.map Prod.fst).Nodup) : ((pySet l k v).map Prod.fst).Nodup := by
  rw [pySet_map_fst]
  by_cases hmem : k ∈ l.map Prod.fst
  · rw [if_pos hmem]; exact h
  · rw [if_neg hmem]
    simp [List.nodup_append, h, hmem]

theorem yearCounts_nodup :
    ∀ (mem : Memory) (acc : List (Int × Nat)), (acc.map Prod.fst).Nodup →
      ((mem.foldl (fun acc kv => yearCountStep acc kv.2.year) acc).map Prod.fst).Nodup := by
  intro mem
  induction mem with
  | nil => intro acc h; exact h
  | cons kv rest ih =>
      intro acc h
      rw [List.foldl_cons]
      apply ih
      unfold yearCountStep
      cases pyGet acc kv.2.year <;> exact nodup_keys_pySet acc kv.2.year _ h

/-- A year occurs in memory iff its album count is nonzero. -/
theorem year_count_pos_iff (mem : Memory) (y : Int) :
    (mem.filter (fun kv => decide (kv.2.year = y))).length ≠ 0
      ↔ y ∈ mem.map (fun kv => kv.2.year) := by
  rw [Ne, List.length_eq_zero, List.filter_eq_nil_iff]
  constructor
  · intro h
    push_neg at h
    obtain ⟨kv, hkv, hy⟩ := h
    simp only [decide_eq_true_eq, Decidable.not_not] at hy
    exact List.mem_map.mpr ⟨kv, hkv, hy⟩
  · intro h hall
    obtain ⟨kv, hkv, hy⟩ := List.mem_map.mp h
    exact hall kv hkv (by simp [hy])

/-- C6 counterexample: one surviving album (year 2020) with no tier-3 placement
at all, threshold 0.  The writer warns for 2020 — it counts *all* albums of a
year, not albums with a tier-3 placement — while the claim's count (albums with
a `_3` placement key in that year) is 0, which does not exceed the threshold. -/
def albumHasTier3Placement (a : Album) : Bool :=
  a.playlist_placements.any (fun kv => strEndsWith kv.1 "_3")

theorem yearly_warning_counterexample :
    (writeAlbumRankerResults memT 0).2 = [2020]
    ∧ (memT.filter
        (fun kv => decide (kv.2.year = 2020) && albumHasTier3Placement kv.2)).length = 0
    ∧ ¬((0 : Int) > 0) := by
  exact ⟨by decide, by decide, by decide⟩

/-- C6 (amended): the yearly warning fires exactly for those years for which the
count of **all** surviving albums of that year (not only albums with a tier-3
placement) exceeds the configured threshold; the warning is non-fatal (the
writer returns normally) and the rows written are a function of memory alone,
identical under any threshold — whether or not any warning fires. -/
theorem yearly_warning_spec (mem : Memory) (th th' : Int) :
    (writeAlbumRankerResults mem th).1 = mem.map (fun kv => getOutputRowFromAlbum kv.2)
    ∧ (writeAlbumRankerResults mem th).1 = (writeAlbumRankerResults mem th').1
    ∧ (∀ y : Int, y ∈ (writeAlbumRankerResults mem th).2 ↔
        (y ∈ mem.map (fun kv => kv.2.year)
          ∧ ((mem.filter (fun kv => decide (kv.2.year = y))).length : Int) > th)) := by
  have hrows : ∀ t : Int, (writeAlbumRankerResults mem t).1
      = mem.map (fun kv => getOutputRowFromAlbum kv.2) := by
    intro t
    unfold writeAlbumRankerResults
    dsimp only
    rw [write_fold_eq]
    simp
  have hwarn : (writeAlbumRankerResults mem th).2
      = ((yearCounts mem).filter (fun yc => decide ((yc.2 : Int) > th))).map Prod.fst := by
    unfold writeAlbumRankerResults yearCounts
    dsimp only
    rw [write_fold_eq]
  refine ⟨hrows th, (hrows th).trans (hrows th').symm, fun y => ?_⟩
  rw [hwarn]
  have hnodup : ((yearCounts mem).map Prod.fst).Nodup :=
    yearCounts_nodup mem [] (by simp)
  have hcount : pyGet (yearCounts mem) y
      = (if (mem.filter (fun kv => decide (kv.2.year = y))).length = 0 then none
         else some ((mem.filter (fun kv => decide (kv.2.year = y))).length)) := by
    unfold yearCounts
    rw [yearCounts_get mem [] y]
    rfl
  constructor
  · intro hy
    obtain ⟨⟨y', c⟩, hfil, hfst⟩ := List.mem_map.mp hy
    obtain rfl : y = y' := hfst.symm
    have hmem' := List.mem_of_mem_filter hfil
    have hp := List.of_mem_filter hfil
    simp only [decide_eq_true_eq] at hp
    have hget : pyGet (yearCounts mem) y = some c := mem_pyGet _ hnodup y c hmem'
    rw [hcount] at hget
    by_cases hz : (mem.filter (fun kv => decide (kv.2.year = y))).length = 0
    · rw [if_pos hz] at hget; exact absurd hget (by simp)
    · rw [if_neg hz] at hget
      obtain rfl : (mem.filter (fun kv => decide (kv.2.year = y))).length = c := by
        injection hget
      exact ⟨(year_count_pos_iff mem y).mp hz, hp⟩
  · rintro ⟨hymem, hgt⟩
    have hz : (mem.filter (fun kv => decide (kv.2.year = y))).length ≠ 0 :=
      (year_count_pos_iff mem y).mpr hymem
    have hget : pyGet (yearCounts mem) y
        = some ((mem.filter (fun kv => decide (kv.2.year = y))).length) := by
      rw [hcount, if_neg hz]
    have hmem' := pyGet_mem _ y _ hget
    refine List.mem_map.mpr ⟨(y, (mem.filter (fun kv => decide (kv.2.year = y))).length),
      List.mem_filter.mpr ⟨hmem', by simpa using hgt⟩, rfl⟩

end Sparse
